import Mathlib

/-!
Verification of the drift-detection and reconciliation logic of the
detections-as-code CLI (src/dac/cli.py, src/dac/client.py, src/dac/models.py).

The embedding below translates the relevant Python into Lean:
  - remote rules are modelled by the projection of the backend JSON that the
    code actually reads: rule_id (possibly absent, and the code also skips a
    falsy, i.e. empty, rule_id), the internal id, the display name and the
    enabled flag; the immutable flag stored by the diff command is never read
    by any code path, so it is omitted;
  - the rule_id -> info dictionary built by diff and push is modelled as an
    association list built by prepending, so that a first-match lookup gives
    the last-seen-wins semantics of a Python dict assignment;
  - the classification loops of diff and push are modelled as left folds that
    append to the accumulated lists, exactly as the Python loops do;
  - get_all_rules is modelled with explicit fuel, so that non-termination of
    the unbounded Python while-loop is observable as the result none for
    every fuel value;
  - the apply phase of push (at most one bulk enable call followed by at most
    one bulk disable call, each guarded by a non-emptiness check, skipped
    entirely under dry_run) is modelled as a pure run record collecting the
    issued calls, the reported succeeded counts and the resulting remote
    state;
  - the validate command's error collection over the two YAML files and the
    sync command's generated enablement.yaml text are modelled directly.
-/

namespace Dac

/-- Schema of in-scope-rules.yaml / enablement.yaml (models.InScopeRules,
models.EnablementManifest): two lists of external rule identifiers. -/
structure InScopeRules where
  enabled : List String
  disabled : List String
deriving Repr, DecidableEq

/-- The projection of a remote rule JSON object read by cli.py: rule.get("rule_id")
(absent modelled as none), rule.get("id"), rule.get("name", ...) and
rule.get("enabled", False). -/
structure RemoteRule where
  rule_id : Option String
  id : String
  name : String
  enabled : Bool
deriving Repr, DecidableEq

/-- The value stored in rule_map for one rule (cli.py diff lines 291-296 and
push lines 406-410): internal id, display name, enabled flag. -/
structure RuleInfo where
  id : String
  name : String
  enabled : Bool
deriving Repr, DecidableEq

/-- The dictionary entry contributed by one remote rule: Python skips rules
whose rule_id is falsy (absent or the empty string). -/
def ruleEntry (r : RemoteRule) : Option (String × RuleInfo) :=
  match r.rule_id with
  | none => none
  | some rid => if rid = "" then none else some (rid, ⟨r.id, r.name, r.enabled⟩)

/-- rule_map construction (cli.py lines 287-296 and 402-410): a Python dict
assignment in iteration order; modelled by prepending entries, so that a
first-match lookup sees the last assignment. -/
def buildRuleMap (rules : List RemoteRule) : List (String × RuleInfo) :=
  rules.foldl
    (fun m r =>
      match ruleEntry r with
      | some e => e :: m
      | none => m)
    []

/-- Dictionary lookup, first match (which is the last-assigned entry). -/
def lookupRule (rid : String) : List (String × RuleInfo) → Option RuleInfo
  | [] => none
  | (k, v) :: rest => if k = rid then some v else lookupRule rid rest

/-- The drift report computed by the diff command (cli.py lines 301-316):
to_enable and to_disable hold (rule_id, name) pairs, not_found holds rule_ids. -/
structure DriftReport where
  to_enable : List (String × String)
  to_disable : List (String × String)
  not_found : List String
deriving Repr, DecidableEq

/-- One iteration of the diff command's loop over in_scope.enabled
(cli.py lines 306-310). -/
def diffEnabledStep (m : List (String × RuleInfo)) (acc : DriftReport) (rid : String) :
    DriftReport :=
  match lookupRule rid m with
  | none => ⟨acc.to_enable, acc.to_disable, acc.not_found ++ [rid]⟩
  | some info =>
    if info.enabled then acc
    else ⟨acc.to_enable ++ [(rid, info.name)], acc.to_disable, acc.not_found⟩

/-- One iteration of the diff command's loop over in_scope.disabled
(cli.py lines 312-316). -/
def diffDisabledStep (m : List (String × RuleInfo)) (acc : DriftReport) (rid : String) :
    DriftReport :=
  match lookupRule rid m with
  | none => ⟨acc.to_enable, acc.to_disable, acc.not_found ++ [rid]⟩
  | some info =>
    if info.enabled then ⟨acc.to_enable, acc.to_disable ++ [(rid, info.name)], acc.not_found⟩
    else acc

/-- The diff command's drift calculation (cli.py lines 301-316): the enabled
loop runs first, the disabled loop second, not_found is shared. -/
def diffDrift (sc : InScopeRules) (m : List (String × RuleInfo)) : DriftReport :=
  sc.disabled.foldl (diffDisabledStep m) (sc.enabled.foldl (diffEnabledStep m) ⟨[], [], []⟩)

/-- The change lists computed by the push command (cli.py lines 414-433). -/
structure PushChanges where
  to_enable_ids : List String
  to_enable_names : List String
  to_disable_ids : List String
  to_disable_names : List String
  not_found : List String
deriving Repr, DecidableEq

/-- One iteration of the push command's loop over in_scope.enabled
(cli.py lines 421-426). -/
def pushEnabledStep (m : List (String × RuleInfo)) (acc : PushChanges) (rid : String) :
    PushChanges :=
  match lookupRule rid m with
  | none =>
    ⟨acc.to_enable_ids, acc.to_enable_names, acc.to_disable_ids, acc.to_disable_names,
      acc.not_found ++ [rid]⟩
  | some info =>
    if info.enabled then acc
    else
      ⟨acc.to_enable_ids ++ [info.id], acc.to_enable_names ++ [info.name],
        acc.to_disable_ids, acc.to_disable_names, acc.not_found⟩

/-- One iteration of the push command's loop over in_scope.disabled
(cli.py lines 428-433). -/
def pushDisabledStep (m : List (String × RuleInfo)) (acc : PushChanges) (rid : String) :
    PushChanges :=
  match lookupRule rid m with
  | none =>
    ⟨acc.to_enable_ids, acc.to_enable_names, acc.to_disable_ids, acc.to_disable_names,
      acc.not_found ++ [rid]⟩
  | some info =>
    if info.enabled then
      ⟨acc.to_enable_ids, acc.to_enable_names, acc.to_disable_ids ++ [info.id],
        acc.to_disable_names ++ [info.name], acc.not_found⟩
    else acc

/-- The push command's change calculation (cli.py lines 414-433). -/
def pushCompute (sc : InScopeRules) (m : List (String × RuleInfo)) : PushChanges :=
  sc.disabled.foldl (pushDisabledStep m) (sc.enabled.foldl (pushEnabledStep m) ⟨[], [], [], [], []⟩)

/-- Effect of one bulk enable/disable call (client.bulk_action with the given
internal ids): every remote rule whose internal id occurs in the list has its
enabled flag set to the given value. -/
def bulkSetEnabled (rules : List RemoteRule) (ids : List String) (v : Bool) :
    List RemoteRule :=
  rules.map (fun r => if r.id ∈ ids then ⟨r.rule_id, r.id, r.name, v⟩ else r)

/-- Remote state after the push command's apply phase: the bulk enable call
(cli.py line 461) followed by the bulk disable call (cli.py line 469). -/
def applyPush (rules : List RemoteRule) (d : PushChanges) : List RemoteRule :=
  bulkSetEnabled (bulkSetEnabled rules d.to_enable_ids true) d.to_disable_ids false

/-- A remote rule with only its enabled flag recomputed from its internal id
and previous flag. -/
def updEnabled (f : String → Bool → Bool) (r : RemoteRule) : RemoteRule :=
  ⟨r.rule_id, r.id, r.name, f r.id r.enabled⟩

/-- The per-rule flag update performed by applyPush, as a function of the
internal id and the previous flag (the disable call runs second, so it wins
on an id occurring in both lists). -/
def newFlag (d : PushChanges) (i : String) (e : Bool) : Bool :=
  if i ∈ d.to_disable_ids then false else if i ∈ d.to_enable_ids then true else e

/-- One page response of the backend find endpoint, as read by
client.get_all_rules: result.get("data", []) and result.get("total", 0). -/
structure FindResult where
  data : List RemoteRule
  total : Nat
deriving Repr, DecidableEq

/-- The body of client.get_all_rules (client.py lines 52-60), with explicit
fuel: the Python while-loop has no iteration bound, so fuel exhaustion (the
result none) means the loop is still running after that many iterations. -/
def getAllRulesAux (find : Nat → FindResult) : Nat → Nat → List RemoteRule →
    Option (List RemoteRule)
  | 0, _, _ => none
  | fuel + 1, page, acc =>
    let result := find page
    let acc2 := acc ++ result.data
    if result.total ≤ acc2.length then some acc2
    else getAllRulesAux find fuel (page + 1) acc2

/-- client.get_all_rules (client.py lines 46-62): starts at page 1 with an
empty accumulator; find stands for fun page => find_rules page 1000. -/
def getAllRules (find : Nat → FindResult) (fuel : Nat) : Option (List RemoteRule) :=
  getAllRulesAux find fuel 1 []

/-- A fake backend that consistently serves a fixed rule list split into the
given consecutive pages (arbitrary page sizes): page p returns the p-th chunk
(empty beyond the last) and always reports the full list's length as total. -/
def chunkBackend (chunks : List (List RemoteRule)) : Nat → FindResult :=
  fun page => ⟨chunks.getD (page - 1) [], chunks.flatten.length⟩

/-- A backend that returns an empty page forever while reporting the
unchanging positive total t + 1. -/
def emptyPagesBackend (t : Nat) : Nat → FindResult :=
  fun _ => ⟨[], t + 1⟩

/-- One bulk action request issued by push (cli.py lines 461 and 469). -/
structure BulkCall where
  action : String
  ids : List String
deriving Repr, DecidableEq

/-- Full record of one push invocation (cli.py lines 441-479): the computed
changes, the bulk calls issued, the succeeded count echoed for each call, and
the final remote state. -/
structure PushRun where
  changes : PushChanges
  calls : List BulkCall
  reported : List (String × Nat)
  finalRules : List RemoteRule
deriving Repr, DecidableEq

def enableAction : String := "enable"

def disableAction : String := "disable"

/-- The push command after the drift calculation (cli.py lines 441-479).
respond models the backend response's optional attributes.summary.succeeded
field for a bulk call; the Python chain of .get defaults to the requested
count when the field is absent.  Under dry_run no bulk call is issued. -/
def pushRun (dryRun : Bool) (sc : InScopeRules) (rules : List RemoteRule)
    (respond : String → List String → Option Nat) : PushRun :=
  let d := pushCompute sc (buildRuleMap rules)
  if dryRun then ⟨d, [], [], rules⟩
  else
    let step1 :=
      if d.to_enable_ids.isEmpty then (([] : List BulkCall), ([] : List (String × Nat)), rules)
      else
        ([⟨enableAction, d.to_enable_ids⟩],
          [(enableAction, (respond enableAction d.to_enable_ids).getD d.to_enable_ids.length)],
          bulkSetEnabled rules d.to_enable_ids true)
    let step2 :=
      if d.to_disable_ids.isEmpty then (([] : List BulkCall), ([] : List (String × Nat)), step1.2.2)
      else
        ([⟨disableAction, d.to_disable_ids⟩],
          [(disableAction, (respond disableAction d.to_disable_ids).getD d.to_disable_ids.length)],
          bulkSetEnabled step1.2.2 d.to_disable_ids false)
    ⟨d, step1.1 ++ step2.1, step1.2.1 ++ step2.2.1, step2.2.2⟩

/-- Outcome of loading and schema-checking one YAML file in the validate
command: missing file, YAML parse error raised by yaml.safe_load, the
keyword-expansion TypeError (yaml.safe_load returned a non-mapping value or
a mapping with non-string keys, so CustomerConfig(**data) respectively
InScopeRules(**data) raises TypeError, which neither except clause of
cli.py lines 184-219 catches — the payload records the offending document),
schema validation errors (pydantic field path and message pairs, never
empty in practice), or valid. -/
inductive FileCheck where
  | missing : FileCheck
  | yamlError : String → FileCheck
  | typeError : String → FileCheck
  | schemaErrors : List (String × String) → FileCheck
  | valid : FileCheck
deriving Repr, DecidableEq

def configLabel : String := "config.yaml"

def rulesLabel : String := "in-scope-rules.yaml"

/-- Whether checking this file raises the uncaught TypeError and aborts the
command. -/
def raisesTypeError : FileCheck → Bool
  | FileCheck.typeError _ => true
  | _ => false

/-- The error strings one file's completed check appends to the collected
errors list (cli.py lines 180-222).  The typeError case contributes nothing:
the command aborts inside that file's try block before appending. -/
def fileErrors (label : String) : FileCheck → List String
  | FileCheck.missing => [label ++ ": file not found"]
  | FileCheck.yamlError e => [label ++ ": YAML parse error: " ++ e]
  | FileCheck.typeError _ => []
  | FileCheck.schemaErrors errs => errs.map (fun fe => label ++ ": " ++ fe.1 ++ ": " ++ fe.2)
  | FileCheck.valid => []

/-- Observable outcome of one validate invocation: whether the command
reached its summary (no uncaught exception), whether the second file's
check block was entered, the errors the summary reported, and the process
exit code (an uncaught Python exception terminates the interpreter with
exit code 1 and a traceback, reporting no collected errors). -/
structure ValidateResult where
  normalExit : Bool
  rulesFileReached : Bool
  reportedErrors : List String
  exitCode : Nat
deriving Repr, DecidableEq

/-- The validate command (cli.py lines 160-232) for an existing or missing
customer directory: config.yaml is checked first; if its check raises the
uncaught TypeError the command crashes there, never reaching
in-scope-rules.yaml, and likewise a TypeError in the second file's check
crashes before the summary; otherwise every error from both files is
collected and reported, with exit code 1 when any error was collected and 0
otherwise.  A missing customer directory exits 1 immediately. -/
def validateRun (customerExists : Bool) (configCheck rulesCheck : FileCheck) :
    ValidateResult :=
  if customerExists then
    if raisesTypeError configCheck then ⟨false, false, [], 1⟩
    else if raisesTypeError rulesCheck then ⟨false, true, [], 1⟩
    else
      let errors := fileErrors configLabel configCheck ++ fileErrors rulesLabel rulesCheck
      ⟨true, true, errors, if errors.isEmpty then 0 else 1⟩
  else ⟨false, false, [], 1⟩

/-- One generated item line of the sync command (cli.py lines 535-536 and
542-543). -/
def itemLine (rid : String) : String :=
  "  - \x22" ++ rid ++ "\x22\n"

/-- The leading block of the generated enablement.yaml up to and including
the enabled key (cli.py lines 523-534). -/
def enablementHeader (customer : String) : String :=
  "# Detections as Code - Rule Enablement Manifest\n#\n# This file is managed by dac CLI. Do not edit directly.\n# Source: customers/" ++
    customer ++
    "/in-scope-rules.yaml\n#\n# To modify, edit the source file in the dac repository and run:\n#   dac sync --customer " ++
    customer ++ "\n\n# Prebuilt rules that should be enabled\nenabled:\n"

/-- The block between the enabled items and the disabled items
(cli.py lines 538-541). -/
def disabledHeader : String :=
  "\n# Prebuilt rules that should be disabled\ndisabled:\n"

/-- The literal flow-sequence line appended when the disabled list is empty
(cli.py lines 545-546). -/
def emptyListLine : String :=
  "  []\n"

/-- Concatenation of the item lines for a list of identifiers. -/
def itemLines (l : List String) : String :=
  l.foldr (fun rid acc => itemLine rid ++ acc) ""

/-- The enablement.yaml content generated by the sync command
(cli.py lines 522-546): header, one item line per enabled id, the disabled
header, one item line per disabled id, and the literal empty-list line only
when the disabled list is empty. -/
def enablementContent (customer : String) (sc : InScopeRules) : String :=
  let s1 := sc.enabled.foldl (fun acc rid => acc ++ itemLine rid) (enablementHeader customer)
  let s2 := sc.disabled.foldl (fun acc rid => acc ++ itemLine rid) (s1 ++ disabledHeader)
  if sc.disabled.isEmpty then s2 ++ emptyListLine else s2

/-- Identifier-level candidate for the diff command's to_enable output. -/
def toEnablePair (m : List (String × RuleInfo)) (rid : String) : Option (String × String) :=
  match lookupRule rid m with
  | none => none
  | some info => if info.enabled then none else some (rid, info.name)

/-- Identifier-level candidate for the diff command's to_disable output. -/
def toDisablePair (m : List (String × RuleInfo)) (rid : String) : Option (String × String) :=
  match lookupRule rid m with
  | none => none
  | some info => if info.enabled then some (rid, info.name) else none

/-- Identifier absent from the remote lookup. -/
def notFoundFlag (m : List (String × RuleInfo)) (rid : String) : Bool :=
  (lookupRule rid m).isNone

/-- The remote rule for this identifier exists and is disabled. -/
def remoteDisabledFlag (m : List (String × RuleInfo)) (rid : String) : Bool :=
  match lookupRule rid m with
  | none => false
  | some info => !info.enabled

/-- The remote rule for this identifier exists and is enabled. -/
def remoteEnabledFlag (m : List (String × RuleInfo)) (rid : String) : Bool :=
  match lookupRule rid m with
  | none => false
  | some info => info.enabled

/-- Internal-id candidate for the push command's to_enable_ids output. -/
def enableIdCand (m : List (String × RuleInfo)) (rid : String) : Option String :=
  match lookupRule rid m with
  | none => none
  | some info => if info.enabled then none else some info.id

/-- Name candidate for the push command's to_enable_names output. -/
def enableNameCand (m : List (String × RuleInfo)) (rid : String) : Option String :=
  match lookupRule rid m with
  | none => none
  | some info => if info.enabled then none else some info.name

/-- Internal-id candidate for the push command's to_disable_ids output. -/
def disableIdCand (m : List (String × RuleInfo)) (rid : String) : Option String :=
  match lookupRule rid m with
  | none => none
  | some info => if info.enabled then some info.id else none

/-- Name candidate for the push command's to_disable_names output. -/
def disableNameCand (m : List (String × RuleInfo)) (rid : String) : Option String :=
  match lookupRule rid m with
  | none => none
  | some info => if info.enabled then some info.name else none

/-- Class needs-enable of an identifier: it lands in the diff report's
to_enable list. -/
def needsEnableClass (sc : InScopeRules) (m : List (String × RuleInfo)) (rid : String) : Prop :=
  rid ∈ (diffDrift sc m).to_enable.map Prod.fst

/-- Class needs-disable of an identifier: it lands in the diff report's
to_disable list. -/
def needsDisableClass (sc : InScopeRules) (m : List (String × RuleInfo)) (rid : String) : Prop :=
  rid ∈ (diffDrift sc m).to_disable.map Prod.fst

/-- Class not-found of an identifier: it lands in the diff report's
not_found list. -/
def notFoundClass (sc : InScopeRules) (m : List (String × RuleInfo)) (rid : String) : Prop :=
  rid ∈ (diffDrift sc m).not_found

/-- Modelled from the spec: the residual already-satisfied class, which the
code does not materialise — the identifier is present in the remote lookup
and the remote flag matches every desire the manifest declares for it. -/
def alreadySatisfied (sc : InScopeRules) (m : List (String × RuleInfo)) (rid : String) : Prop :=
  ∃ info, lookupRule rid m = some info ∧
    (rid ∈ sc.enabled → info.enabled = true) ∧ (rid ∈ sc.disabled → info.enabled = false)

/-- The identifier falls in exactly one of the four classes. -/
def ExactlyOneClass (sc : InScopeRules) (rules : List RemoteRule) (rid : String) : Prop :=
  let m := buildRuleMap rules
  (needsEnableClass sc m rid ∨ needsDisableClass sc m rid ∨ notFoundClass sc m rid ∨
      alreadySatisfied sc m rid) ∧
    ¬(needsEnableClass sc m rid ∧ needsDisableClass sc m rid) ∧
    ¬(needsEnableClass sc m rid ∧ notFoundClass sc m rid) ∧
    ¬(needsEnableClass sc m rid ∧ alreadySatisfied sc m rid) ∧
    ¬(needsDisableClass sc m rid ∧ notFoundClass sc m rid) ∧
    ¬(needsDisableClass sc m rid ∧ alreadySatisfied sc m rid) ∧
    ¬(notFoundClass sc m rid ∧ alreadySatisfied sc m rid)

/-- Reconciliation reached a fixed point: a second push computation against
the remote state updated by the first run's changes finds nothing to enable
and nothing to disable. -/
def SecondRunClean (sc : InScopeRules) (rules : List RemoteRule) : Prop :=
  (pushCompute sc
        (buildRuleMap (applyPush rules (pushCompute sc (buildRuleMap rules))))).to_enable_ids =
      [] ∧
    (pushCompute sc
          (buildRuleMap (applyPush rules (pushCompute sc (buildRuleMap rules))))).to_disable_ids =
      []

/-- Manifest of the spec's worked scenario. -/
def scenarioManifest : InScopeRules :=
  ⟨["A", "B"], ["C"]⟩

/-- Remote rule set of the spec's worked scenario: A disabled, B enabled,
C enabled, D disabled. -/
def scenarioRules : List RemoteRule :=
  [⟨some "A", "internal-a", "Rule A", false⟩,
    ⟨some "B", "internal-b", "Rule B", true⟩,
    ⟨some "C", "internal-c", "Rule C", true⟩,
    ⟨some "D", "internal-d", "Rule D", false⟩]

/-- Manifest listing the same identifier as both enabled and disabled (the
shape the spec leaves unvalidated). -/
def overlapManifest : InScopeRules :=
  ⟨["A"], ["A"]⟩

/-- A single disabled remote rule with identifier A. -/
def overlapRules : List RemoteRule :=
  [⟨some "A", "internal-1", "Rule A", false⟩]

end Dac

namespace Dac

theorem foldl_diffEnabledStep (m : List (String × RuleInfo)) :
    ∀ (l : List String) (acc : DriftReport),
      l.foldl (diffEnabledStep m) acc =
        ⟨acc.to_enable ++ l.filterMap (toEnablePair m), acc.to_disable,
          acc.not_found ++ l.filter (notFoundFlag m)⟩ := by
  intro l
  induction l with
  | nil => intro acc; simp
  | cons rid rest ih =>
    intro acc
    rw [List.foldl_cons, ih]
    cases h : lookupRule rid m with
    | none =>
      simp [diffEnabledStep, toEnablePair, notFoundFlag, h, List.filter_cons,
        List.append_assoc]
    | some info =>
      cases he : info.enabled with
      | false =>
        simp [diffEnabledStep, toEnablePair, notFoundFlag, h, he, List.filter_cons,
          List.append_assoc]
      | true =>
        simp [diffEnabledStep, toEnablePair, notFoundFlag, h, he, List.filter_cons]

theorem foldl_diffDisabledStep (m : List (String × RuleInfo)) :
    ∀ (l : List String) (acc : DriftReport),
      l.foldl (diffDisabledStep m) acc =
        ⟨acc.to_enable, acc.to_disable ++ l.filterMap (toDisablePair m),
          acc.not_found ++ l.filter (notFoundFlag m)⟩ := by
  intro l
  induction l with
  | nil => intro acc; simp
  | cons rid rest ih =>
    intro acc
    rw [List.foldl_cons, ih]
    cases h : lookupRule rid m with
    | none =>
      simp [diffDisabledStep, toDisablePair, notFoundFlag, h, List.filter_cons,
        List.append_assoc]
    | some info =>
      cases he : info.enabled with
      | false =>
        simp [diffDisabledStep, toDisablePair, notFoundFlag, h, he, List.filter_cons]
      | true =>
        simp [diffDisabledStep, toDisablePair, notFoundFlag, h, he, List.filter_cons,
          List.append_assoc]

theorem diffDrift_spec (sc : InScopeRules) (m : List (String × RuleInfo)) :
    diffDrift sc m =
      ⟨sc.enabled.filterMap (toEnablePair m), sc.disabled.filterMap (toDisablePair m),
        sc.enabled.filter (notFoundFlag m) ++ sc.disabled.filter (notFoundFlag m)⟩ := by
  unfold diffDrift
  rw [foldl_diffEnabledStep, foldl_diffDisabledStep]
  simp

theorem foldl_pushEnabledStep (m : List (String × RuleInfo)) :
    ∀ (l : List String) (acc : PushChanges),
      l.foldl (pushEnabledStep m) acc =
        ⟨acc.to_enable_ids ++ l.filterMap (enableIdCand m),
          acc.to_enable_names ++ l.filterMap (enableNameCand m), acc.to_disable_ids,
          acc.to_disable_names, acc.not_found ++ l.filter (notFoundFlag m)⟩ := by
  intro l
  induction l with
  | nil => intro acc; simp
  | cons rid rest ih =>
    intro acc
    rw [List.foldl_cons, ih]
    cases h : lookupRule rid m with
    | none =>
      simp [pushEnabledStep, enableIdCand, enableNameCand, notFoundFlag, h,
        List.filter_cons, List.append_assoc]
    | some info =>
      cases he : info.enabled with
      | false =>
        simp [pushEnabledStep, enableIdCand, enableNameCand, notFoundFlag, h, he,
          List.filter_cons, List.append_assoc]
      | true =>
        simp [pushEnabledStep, enableIdCand, enableNameCand, notFoundFlag, h, he,
          List.filter_cons]

theorem foldl_pushDisabledStep (m : List (String × RuleInfo)) :
    ∀ (l : List String) (acc : PushChanges),
      l.foldl (pushDisabledStep m) acc =
        ⟨acc.to_enable_ids, acc.to_enable_names,
          acc.to_disable_ids ++ l.filterMap (disableIdCand m),
          acc.to_disable_names ++ l.filterMap (disableNameCand m),
          acc.not_found ++ l.filter (notFoundFlag m)⟩ := by
  intro l
  induction l with
  | nil => intro acc; simp
  | cons rid rest ih =>
    intro acc
    rw [List.foldl_cons, ih]
    cases h : lookupRule rid m with
    | none =>
      simp [pushDisabledStep, disableIdCand, disableNameCand, notFoundFlag, h,
        List.filter_cons, List.append_assoc]
    | some info =>
      cases he : info.enabled with
      | false =>
        simp [pushDisabledStep, disableIdCand, disableNameCand, notFoundFlag, h, he,
          List.filter_cons]
      | true =>
        simp [pushDisabledStep, disableIdCand, disableNameCand, notFoundFlag, h, he,
          List.filter_cons, List.append_assoc]

theorem pushCompute_spec (sc : InScopeRules) (m : List (String × RuleInfo)) :
    pushCompute sc m =
      ⟨sc.enabled.filterMap (enableIdCand m), sc.enabled.filterMap (enableNameCand m),
        sc.disabled.filterMap (disableIdCand m), sc.disabled.filterMap (disableNameCand m),
        sc.enabled.filter (notFoundFlag m) ++ sc.disabled.filter (notFoundFlag m)⟩ := by
  unfold pushCompute
  rw [foldl_pushEnabledStep, foldl_pushDisabledStep]
  simp

theorem filterMap_guard_eq_filter {α : Type} (p : α → Bool) (f : α → Option α)
    (hf : ∀ a, f a = if p a then some a else none) :
    ∀ l : List α, l.filterMap f = l.filter p := by
  intro l
  induction l with
  | nil => simp
  | cons a rest ih =>
    cases hp : p a with
    | false => simp [List.filterMap_cons, List.filter_cons, hf a, hp, ih]
    | true => simp [List.filterMap_cons, List.filter_cons, hf a, hp, ih]

theorem toEnablePair_fst (m : List (String × RuleInfo)) (rid : String) :
    (toEnablePair m rid).map Prod.fst =
      if remoteDisabledFlag m rid then some rid else none := by
  unfold toEnablePair remoteDisabledFlag
  cases h : lookupRule rid m with
  | none => simp
  | some info => cases he : info.enabled <;> simp [he]

theorem toDisablePair_fst (m : List (String × RuleInfo)) (rid : String) :
    (toDisablePair m rid).map Prod.fst =
      if remoteEnabledFlag m rid then some rid else none := by
  unfold toDisablePair remoteEnabledFlag
  cases h : lookupRule rid m with
  | none => simp
  | some info => cases he : info.enabled <;> simp [he]

theorem toEnable_map_fst (sc : InScopeRules) (m : List (String × RuleInfo)) :
    (diffDrift sc m).to_enable.map Prod.fst = sc.enabled.filter (remoteDisabledFlag m) := by
  rw [diffDrift_spec]
  show (sc.enabled.filterMap (toEnablePair m)).map Prod.fst = _
  rw [List.map_filterMap]
  exact filterMap_guard_eq_filter (remoteDisabledFlag m) _ (toEnablePair_fst m) sc.enabled

theorem toDisable_map_fst (sc : InScopeRules) (m : List (String × RuleInfo)) :
    (diffDrift sc m).to_disable.map Prod.fst = sc.disabled.filter (remoteEnabledFlag m) := by
  rw [diffDrift_spec]
  show (sc.disabled.filterMap (toDisablePair m)).map Prod.fst = _
  rw [List.map_filterMap]
  exact filterMap_guard_eq_filter (remoteEnabledFlag m) _ (toDisablePair_fst m) sc.disabled

theorem notFound_spec (sc : InScopeRules) (m : List (String × RuleInfo)) :
    (diffDrift sc m).not_found =
      sc.enabled.filter (notFoundFlag m) ++ sc.disabled.filter (notFoundFlag m) := by
  rw [diffDrift_spec]

end Dac

namespace Dac

theorem buildRuleMap_foldl (l : List RemoteRule) :
    ∀ acc : List (String × RuleInfo),
      l.foldl
          (fun m r =>
            match ruleEntry r with
            | some e => e :: m
            | none => m)
          acc =
        l.reverse.filterMap ruleEntry ++ acc := by
  induction l with
  | nil => intro acc; simp
  | cons r rest ih =>
    intro acc
    rw [List.foldl_cons]
    cases h : ruleEntry r with
    | none => simp [h, ih, List.filterMap_append]
    | some e => simp [h, ih, List.filterMap_append]

theorem buildRuleMap_eq (rules : List RemoteRule) :
    buildRuleMap rules = rules.reverse.filterMap ruleEntry := by
  unfold buildRuleMap
  rw [buildRuleMap_foldl]
  simp

theorem lookupRule_mem {rid : String} {v : RuleInfo} :
    ∀ {l : List (String × RuleInfo)}, lookupRule rid l = some v → (rid, v) ∈ l := by
  intro l
  induction l with
  | nil => intro h; simp [lookupRule] at h
  | cons kv rest ih =>
    intro h
    rw [show lookupRule rid (kv :: rest) =
        if kv.1 = rid then some kv.2 else lookupRule rid rest from rfl] at h
    by_cases hk : kv.1 = rid
    · rw [if_pos hk] at h
      have hv : kv.2 = v := Option.some.inj h
      rw [← hk, ← hv]
      exact List.mem_cons_self _ _
    · rw [if_neg hk] at h
      exact List.mem_cons_of_mem _ (ih h)

theorem lookup_backing {rules : List RemoteRule} {rid : String} {info : RuleInfo}
    (h : lookupRule rid (buildRuleMap rules) = some info) :
    ∃ r ∈ rules, r.rule_id = some rid ∧ r.id = info.id ∧ r.name = info.name ∧
      r.enabled = info.enabled := by
  rw [buildRuleMap_eq] at h
  have hmem := lookupRule_mem h
  obtain ⟨r, hr, hre⟩ := List.mem_filterMap.mp hmem
  refine ⟨r, List.mem_reverse.mp hr, ?_⟩
  cases hrid : r.rule_id with
  | none =>
    have h0 : ruleEntry r = none := by simp [ruleEntry, hrid]
    rw [h0] at hre
    exact absurd hre (by simp)
  | some s =>
    by_cases hs : s = ""
    · have h0 : ruleEntry r = none := by simp [ruleEntry, hrid, hs]
      rw [h0] at hre
      exact absurd hre (by simp)
    · have h2 : ruleEntry r = some (s, ⟨r.id, r.name, r.enabled⟩) := by
        simp [ruleEntry, hrid, hs]
      rw [h2] at hre
      have hpair := Option.some.inj hre
      have hsr : s = rid := congrArg Prod.fst hpair
      have hinfo : (⟨r.id, r.name, r.enabled⟩ : RuleInfo) = info := congrArg Prod.snd hpair
      refine ⟨?_, congrArg RuleInfo.id hinfo, congrArg RuleInfo.name hinfo,
        congrArg RuleInfo.enabled hinfo⟩
      rw [← hsr]

theorem lookupRule_filterMap_upd (f : String → Bool → Bool) (rid : String) :
    ∀ L : List RemoteRule,
      lookupRule rid ((L.map (updEnabled f)).filterMap ruleEntry) =
        (lookupRule rid (L.filterMap ruleEntry)).map
          (fun info => (⟨info.id, info.name, f info.id info.enabled⟩ : RuleInfo)) := by
  intro L
  induction L with
  | nil => simp [lookupRule]
  | cons r rest ih =>
    rw [List.map_cons, List.filterMap_cons, List.filterMap_cons]
    cases hrid : r.rule_id with
    | none =>
      have h1 : ruleEntry (updEnabled f r) = none := by simp [ruleEntry, updEnabled, hrid]
      have h2 : ruleEntry r = none := by simp [ruleEntry, hrid]
      rw [h1, h2]
      exact ih
    | some s =>
      by_cases hs : s = ""
      · have h1 : ruleEntry (updEnabled f r) = none := by
          simp [ruleEntry, updEnabled, hrid, hs]
        have h2 : ruleEntry r = none := by simp [ruleEntry, hrid, hs]
        rw [h1, h2]
        exact ih
      · have h1 : ruleEntry (updEnabled f r) =
            some (s, ⟨r.id, r.name, f r.id r.enabled⟩) := by
          simp [ruleEntry, updEnabled, hrid, hs]
        have h2 : ruleEntry r = some (s, ⟨r.id, r.name, r.enabled⟩) := by
          simp [ruleEntry, hrid, hs]
        rw [h1, h2]
        by_cases hsr : s = rid
        · simp only [lookupRule, if_pos hsr]
          rfl
        · simp only [lookupRule, if_neg hsr]
          exact ih

theorem lookupRule_map_upd (f : String → Bool → Bool) (rid : String)
    (rules : List RemoteRule) :
    lookupRule rid (buildRuleMap (rules.map (updEnabled f))) =
      (lookupRule rid (buildRuleMap rules)).map
        (fun info => (⟨info.id, info.name, f info.id info.enabled⟩ : RuleInfo)) := by
  rw [buildRuleMap_eq, buildRuleMap_eq, ← List.map_reverse]
  exact lookupRule_filterMap_upd f rid rules.reverse

theorem applyPush_eq_map (rules : List RemoteRule) (d : PushChanges) :
    applyPush rules d = rules.map (updEnabled (newFlag d)) := by
  unfold applyPush bulkSetEnabled
  rw [List.map_map]
  apply List.map_congr_left
  intro r _
  show (fun r : RemoteRule => if r.id ∈ d.to_disable_ids then
      (⟨r.rule_id, r.id, r.name, false⟩ : RemoteRule) else r)
      (if r.id ∈ d.to_enable_ids then ⟨r.rule_id, r.id, r.name, true⟩ else r) =
    updEnabled (newFlag d) r
  unfold updEnabled newFlag
  by_cases he : r.id ∈ d.to_enable_ids
  · rw [if_pos he]
    by_cases hd : r.id ∈ d.to_disable_ids
    · simp [hd]
    · simp [hd, he]
  · rw [if_neg he]
    by_cases hd : r.id ∈ d.to_disable_ids
    · simp [hd]
    · simp [hd, he]

theorem mem_to_enable_ids_iff {sc : InScopeRules} {m : List (String × RuleInfo)}
    {i : String} :
    i ∈ (pushCompute sc m).to_enable_ids ↔
      ∃ rid ∈ sc.enabled, ∃ info, lookupRule rid m = some info ∧
        info.enabled = false ∧ info.id = i := by
  rw [pushCompute_spec]
  show i ∈ sc.enabled.filterMap (enableIdCand m) ↔ _
  rw [List.mem_filterMap]
  constructor
  · rintro ⟨rid, hrid, hc⟩
    refine ⟨rid, hrid, ?_⟩
    unfold enableIdCand at hc
    split at hc
    · exact absurd hc (by simp)
    case h_2 info heq =>
      split at hc
      · exact absurd hc (by simp)
      case isFalse hne =>
        refine ⟨info, heq, ?_, Option.some.inj hc⟩
        simpa using hne
  · rintro ⟨rid, hrid, info, hlk, he, hid⟩
    refine ⟨rid, hrid, ?_⟩
    unfold enableIdCand
    rw [hlk]
    simp [he, hid]

theorem mem_to_disable_ids_iff {sc : InScopeRules} {m : List (String × RuleInfo)}
    {i : String} :
    i ∈ (pushCompute sc m).to_disable_ids ↔
      ∃ rid ∈ sc.disabled, ∃ info, lookupRule rid m = some info ∧
        info.enabled = true ∧ info.id = i := by
  rw [pushCompute_spec]
  show i ∈ sc.disabled.filterMap (disableIdCand m) ↔ _
  rw [List.mem_filterMap]
  constructor
  · rintro ⟨rid, hrid, hc⟩
    refine ⟨rid, hrid, ?_⟩
    unfold disableIdCand at hc
    split at hc
    · exact absurd hc (by simp)
    case h_2 info heq =>
      split at hc
      case isTrue he => exact ⟨info, heq, he, Option.some.inj hc⟩
      case isFalse hne => exact absurd hc (by simp)
  · rintro ⟨rid, hrid, info, hlk, he, hid⟩
    refine ⟨rid, hrid, ?_⟩
    unfold disableIdCand
    rw [hlk]
    simp [he, hid]

end Dac

namespace Dac

theorem distinct_rids_distinct_ids {rules : List RemoteRule} {rid rid' : String}
    {info info' : RuleInfo} (hnodup : (rules.map RemoteRule.id).Nodup)
    (hne : rid ≠ rid') (h : lookupRule rid (buildRuleMap rules) = some info)
    (h' : lookupRule rid' (buildRuleMap rules) = some info') : info.id ≠ info'.id := by
  obtain ⟨r, hr, hrid, hid, _, _⟩ := lookup_backing h
  obtain ⟨r', hr', hrid', hid', _, _⟩ := lookup_backing h'
  intro heq
  have hrr : r = r' := by
    apply List.inj_on_of_nodup_map hnodup hr hr'
    rw [hid, hid', heq]
  apply hne
  have : some rid = some rid' := by rw [← hrid, ← hrid', hrr]
  exact Option.some.inj this

theorem secondRun_lookup (sc : InScopeRules) (rules : List RemoteRule) (rid : String) :
    lookupRule rid (buildRuleMap (applyPush rules (pushCompute sc (buildRuleMap rules)))) =
      (lookupRule rid (buildRuleMap rules)).map
        (fun info =>
          (⟨info.id, info.name,
            newFlag (pushCompute sc (buildRuleMap rules)) info.id info.enabled⟩ : RuleInfo)) := by
  rw [applyPush_eq_map]
  exact lookupRule_map_upd _ rid rules

theorem flatten_take_succ {α : Type} (C : List (List α)) :
    ∀ k : Nat, (C.take (k + 1)).flatten = (C.take k).flatten ++ C.getD k [] := by
  induction C with
  | nil => intro k; simp [List.getD]
  | cons c cs ih =>
    intro k
    cases k with
    | zero => simp [List.getD]
    | succ k =>
      rw [List.take_succ_cons, List.take_succ_cons, List.flatten_cons, List.flatten_cons,
        ih k, List.append_assoc]
      rfl

theorem flatten_take_prefix {α : Type} (C : List (List α)) (k : Nat) :
    (C.take k).flatten ++ (C.drop k).flatten = C.flatten := by
  rw [← List.flatten_append, List.take_append_drop]

theorem getAllRulesAux_chunk (chunks : List (List RemoteRule)) :
    ∀ (fuel k : Nat), chunks.length < k + fuel →
      (k = 0 ∨ ((chunks.take k).flatten).length < chunks.flatten.length) →
      getAllRulesAux (chunkBackend chunks) fuel (k + 1) ((chunks.take k).flatten) =
        some chunks.flatten := by
  intro fuel
  induction fuel with
  | zero =>
    intro k hlen hk
    rcases hk with hk | hk
    · subst hk
      exact absurd hlen (by simp)
    · exfalso
      have htake : chunks.take k = chunks := List.take_of_length_le (by omega)
      rw [htake] at hk
      omega
  | succ f ih =>
    intro k hlen hk
    rw [show getAllRulesAux (chunkBackend chunks) (f + 1) (k + 1) ((chunks.take k).flatten) =
        (if (chunkBackend chunks (k + 1)).total ≤
            ((chunks.take k).flatten ++ (chunkBackend chunks (k + 1)).data).length then
          some ((chunks.take k).flatten ++ (chunkBackend chunks (k + 1)).data)
        else
          getAllRulesAux (chunkBackend chunks) f (k + 2)
            ((chunks.take k).flatten ++ (chunkBackend chunks (k + 1)).data)) from rfl]
    have hdata : (chunkBackend chunks (k + 1)).data = chunks.getD k [] := by
      simp [chunkBackend]
    have htotal : (chunkBackend chunks (k + 1)).total = chunks.flatten.length := by
      simp [chunkBackend]
    rw [hdata, htotal, ← flatten_take_succ]
    by_cases hstop : chunks.flatten.length ≤ ((chunks.take (k + 1)).flatten).length
    · rw [if_pos hstop]
      congr 1
      have hsplit := flatten_take_prefix chunks (k + 1)
      have hlen2 : ((chunks.drop (k + 1)).flatten).length = 0 := by
        have := congrArg List.length hsplit
        rw [List.length_append] at this
        omega
      have hnil : (chunks.drop (k + 1)).flatten = [] := List.length_eq_zero.mp hlen2
      rw [← hsplit, hnil, List.append_nil]
    · rw [if_neg hstop]
      have := ih (k + 1) (by omega) (Or.inr (by omega))
      rw [show k + 1 + 1 = k + 2 from rfl] at this
      exact this

theorem emptyPages_stuck (t : Nat) :
    ∀ (fuel page : Nat), getAllRulesAux (emptyPagesBackend t) fuel page [] = none := by
  intro fuel
  induction fuel with
  | zero => intro page; rfl
  | succ f ih =>
    intro page
    rw [show getAllRulesAux (emptyPagesBackend t) (f + 1) page [] =
        (if (emptyPagesBackend t page).total ≤
            (([] : List RemoteRule) ++ (emptyPagesBackend t page).data).length then
          some (([] : List RemoteRule) ++ (emptyPagesBackend t page).data)
        else
          getAllRulesAux (emptyPagesBackend t) f (page + 1)
            (([] : List RemoteRule) ++ (emptyPagesBackend t page).data)) from rfl]
    have h1 : (emptyPagesBackend t page).data = ([] : List RemoteRule) := rfl
    have h2 : (emptyPagesBackend t page).total = t + 1 := rfl
    rw [h1, h2]
    simp only [List.append_nil]
    rw [if_neg (by simp)]
    exact ih (page + 1)

theorem foldl_itemLine (l : List String) :
    ∀ b : String, l.foldl (fun acc rid => acc ++ itemLine rid) b = b ++ itemLines l := by
  induction l with
  | nil =>
    intro b
    show b = b ++ ""
    exact (String.append_empty b).symm
  | cons rid rest ih =>
    intro b
    rw [List.foldl_cons, ih]
    rw [show itemLines (rid :: rest) = itemLine rid ++ itemLines rest from rfl]
    rw [String.append_assoc]

end Dac

namespace Dac

theorem enablementContent_eq (customer : String) (sc : InScopeRules) :
    enablementContent customer sc =
      enablementHeader customer ++ itemLines sc.enabled ++ disabledHeader ++
        itemLines sc.disabled ++ (if sc.disabled.isEmpty then emptyListLine else "") := by
  unfold enablementContent
  simp only [foldl_itemLine]
  cases h : sc.disabled.isEmpty with
  | true => simp
  | false => simp [String.append_empty]

theorem exactly_one_four {A B C D : Prop}
    (h : (A ∧ ¬B ∧ ¬C ∧ ¬D) ∨ (¬A ∧ B ∧ ¬C ∧ ¬D) ∨ (¬A ∧ ¬B ∧ C ∧ ¬D) ∨
      (¬A ∧ ¬B ∧ ¬C ∧ D)) :
    (A ∨ B ∨ C ∨ D) ∧ ¬(A ∧ B) ∧ ¬(A ∧ C) ∧ ¬(A ∧ D) ∧ ¬(B ∧ C) ∧ ¬(B ∧ D) ∧
      ¬(C ∧ D) := by
  tauto

/-- Claim C1: the diff command's drift classification computes to_enable as
exactly the identifiers of manifest.enabled whose remote rule exists and has
enabled false, to_disable as exactly the identifiers of manifest.disabled
whose remote rule exists and has enabled true, and not_found as exactly the
manifest identifiers absent from the remote lookup; on the spec's worked
scenario this gives to_enable = [A], to_disable = [C], not_found = [], with
B and D untouched. -/
theorem c1_drift_classification :
    (∀ (sc : InScopeRules) (rules : List RemoteRule),
        (diffDrift sc (buildRuleMap rules)).to_enable.map Prod.fst =
            sc.enabled.filter (remoteDisabledFlag (buildRuleMap rules)) ∧
          (diffDrift sc (buildRuleMap rules)).to_disable.map Prod.fst =
            sc.disabled.filter (remoteEnabledFlag (buildRuleMap rules)) ∧
          (diffDrift sc (buildRuleMap rules)).not_found =
            sc.enabled.filter (notFoundFlag (buildRuleMap rules)) ++
              sc.disabled.filter (notFoundFlag (buildRuleMap rules))) ∧
      (diffDrift scenarioManifest (buildRuleMap scenarioRules)).to_enable.map Prod.fst =
          ["A"] ∧
      (diffDrift scenarioManifest (buildRuleMap scenarioRules)).to_disable.map Prod.fst =
          ["C"] ∧
      (diffDrift scenarioManifest (buildRuleMap scenarioRules)).not_found = [] ∧
      (("B" : String) ∉ (diffDrift scenarioManifest (buildRuleMap scenarioRules)).to_enable.map
          Prod.fst) ∧
      (("B" : String) ∉ (diffDrift scenarioManifest (buildRuleMap scenarioRules)).to_disable.map
          Prod.fst) ∧
      (("B" : String) ∉ (diffDrift scenarioManifest (buildRuleMap scenarioRules)).not_found) ∧
      (("D" : String) ∉ (diffDrift scenarioManifest (buildRuleMap scenarioRules)).to_enable.map
          Prod.fst) ∧
      (("D" : String) ∉ (diffDrift scenarioManifest (buildRuleMap scenarioRules)).to_disable.map
          Prod.fst) ∧
      (("D" : String) ∉ (diffDrift scenarioManifest (buildRuleMap scenarioRules)).not_found) := by
  refine ⟨?_, ?_, ?_, ?_, ?_, ?_, ?_, ?_, ?_, ?_⟩
  · intro sc rules
    exact ⟨toEnable_map_fst sc (buildRuleMap rules), toDisable_map_fst sc (buildRuleMap rules),
      notFound_spec sc (buildRuleMap rules)⟩
  all_goals decide

/-- Claim C2: every identifier occurring in the manifest (the union of the
enabled and disabled lists) falls into exactly one of the four classes
needs-enable, needs-disable, already-satisfied, not-found, so the four
classes are pairwise disjoint and partition the manifest's identifier
union. -/
theorem c2_classification_partition (sc : InScopeRules) (rules : List RemoteRule)
    (rid : String) (hmem : rid ∈ sc.enabled ++ sc.disabled) :
    ExactlyOneClass sc rules rid := by
  have hmem' : rid ∈ sc.enabled ∨ rid ∈ sc.disabled := List.mem_append.mp hmem
  have hE : needsEnableClass sc (buildRuleMap rules) rid ↔
      rid ∈ sc.enabled ∧ remoteDisabledFlag (buildRuleMap rules) rid = true := by
    unfold needsEnableClass
    rw [toEnable_map_fst]
    exact List.mem_filter
  have hD : needsDisableClass sc (buildRuleMap rules) rid ↔
      rid ∈ sc.disabled ∧ remoteEnabledFlag (buildRuleMap rules) rid = true := by
    unfold needsDisableClass
    rw [toDisable_map_fst]
    exact List.mem_filter
  have hN : notFoundClass sc (buildRuleMap rules) rid ↔
      (rid ∈ sc.enabled ∨ rid ∈ sc.disabled) ∧
        notFoundFlag (buildRuleMap rules) rid = true := by
    unfold notFoundClass
    rw [notFound_spec, List.mem_append, List.mem_filter, List.mem_filter]
    tauto
  show (needsEnableClass sc (buildRuleMap rules) rid ∨
        needsDisableClass sc (buildRuleMap rules) rid ∨
        notFoundClass sc (buildRuleMap rules) rid ∨
        alreadySatisfied sc (buildRuleMap rules) rid) ∧ _
  apply exactly_one_four
  cases h : lookupRule rid (buildRuleMap rules) with
  | none =>
    have hdf : remoteDisabledFlag (buildRuleMap rules) rid = false := by
      unfold remoteDisabledFlag
      rw [h]
    have hef : remoteEnabledFlag (buildRuleMap rules) rid = false := by
      unfold remoteEnabledFlag
      rw [h]
    have hnf : notFoundFlag (buildRuleMap rules) rid = true := by
      unfold notFoundFlag
      rw [h]
      rfl
    refine Or.inr (Or.inr (Or.inl ⟨?_, ?_, hN.mpr ⟨hmem', hnf⟩, ?_⟩))
    · intro hx
      have := (hE.mp hx).2
      rw [hdf] at this
      exact absurd this (by simp)
    · intro hx
      have := (hD.mp hx).2
      rw [hef] at this
      exact absurd this (by simp)
    · rintro ⟨info, hl, -, -⟩
      rw [h] at hl
      exact absurd hl (by simp)
  | some info =>
    have hlf : ∀ info', lookupRule rid (buildRuleMap rules) = some info' → info' = info := by
      intro info' hl
      rw [h] at hl
      exact (Option.some.inj hl).symm
    cases he : info.enabled with
    | true =>
      have hdf : remoteDisabledFlag (buildRuleMap rules) rid = false := by
        unfold remoteDisabledFlag
        rw [h]
        simp [he]
      have hef : remoteEnabledFlag (buildRuleMap rules) rid = true := by
        unfold remoteEnabledFlag
        rw [h]
        simp [he]
      have hnf : notFoundFlag (buildRuleMap rules) rid = false := by
        unfold notFoundFlag
        rw [h]
        rfl
      have hnoE : ¬needsEnableClass sc (buildRuleMap rules) rid := by
        intro hx
        have := (hE.mp hx).2
        rw [hdf] at this
        exact absurd this (by simp)
      have hnoN : ¬notFoundClass sc (buildRuleMap rules) rid := by
        intro hx
        have := (hN.mp hx).2
        rw [hnf] at this
        exact absurd this (by simp)
      by_cases hin : rid ∈ sc.disabled
      · refine Or.inr (Or.inl ⟨hnoE, hD.mpr ⟨hin, hef⟩, hnoN, ?_⟩)
        rintro ⟨info', hl, -, hdis⟩
        have := hdis hin
        rw [hlf info' hl] at this
        rw [he] at this
        exact absurd this (by simp)
      · have hinE : rid ∈ sc.enabled := hmem'.resolve_right hin
        refine Or.inr (Or.inr (Or.inr ⟨hnoE, ?_, hnoN,
          ⟨info, h, fun _ => he, fun hx => absurd hx hin⟩⟩))
        intro hx
        exact hin (hD.mp hx).1
    | false =>
      have hdf : remoteDisabledFlag (buildRuleMap rules) rid = true := by
        unfold remoteDisabledFlag
        rw [h]
        simp [he]
      have hef : remoteEnabledFlag (buildRuleMap rules) rid = false := by
        unfold remoteEnabledFlag
        rw [h]
        simp [he]
      have hnf : notFoundFlag (buildRuleMap rules) rid = false := by
        unfold notFoundFlag
        rw [h]
        rfl
      have hnoD : ¬needsDisableClass sc (buildRuleMap rules) rid := by
        intro hx
        have := (hD.mp hx).2
        rw [hef] at this
        exact absurd this (by simp)
      have hnoN : ¬notFoundClass sc (buildRuleMap rules) rid := by
        intro hx
        have := (hN.mp hx).2
        rw [hnf] at this
        exact absurd this (by simp)
      by_cases hin : rid ∈ sc.enabled
      · refine Or.inl ⟨hE.mpr ⟨hin, hdf⟩, hnoD, hnoN, ?_⟩
        rintro ⟨info', hl, hen, -⟩
        have := hen hin
        rw [hlf info' hl] at this
        rw [he] at this
        exact absurd this (by simp)
      · have hinD : rid ∈ sc.disabled := hmem'.resolve_left hin
        refine Or.inr (Or.inr (Or.inr ⟨?_, hnoD, hnoN,
          ⟨info, h, fun hx => absurd hx hin, fun _ => he⟩⟩))
        intro hx
        exact hin (hE.mp hx).1

/-- Witness for claim C2 at a concrete input. -/
theorem c2_classification_partition_witness :
    (("A" : String) ∈ (⟨["A"], []⟩ : InScopeRules).enabled ++
        (⟨["A"], []⟩ : InScopeRules).disabled) ∧
      ExactlyOneClass ⟨["A"], []⟩ scenarioRules "A" :=
  ⟨by decide, c2_classification_partition (⟨["A"], []⟩ : InScopeRules) scenarioRules "A"
    (by decide)⟩

end Dac

namespace Dac

/-- Counterexample to claim C3 as stated: for the manifest listing identifier
A as both enabled and disabled against a single disabled remote rule A, the
first run enables A, and the second classification then asks to disable it,
so the second run is not change-free. -/
theorem c3_idempotence_counterexample : ¬SecondRunClean overlapManifest overlapRules := by
  unfold SecondRunClean
  decide

/-- Claim C3 (amended): for every manifest whose enabled and disabled lists
share no identifier and every remote rule set whose internal ids are pairwise
distinct, applying the enable and disable changes computed by one push
classification to the remote state makes a second classification of the same
manifest find nothing to enable and nothing to disable. -/
theorem c3_amended_idempotence (sc : InScopeRules) (rules : List RemoteRule)
    (hdisj : ∀ x ∈ sc.enabled, x ∉ sc.disabled)
    (hnodup : (rules.map RemoteRule.id).Nodup) : SecondRunClean sc rules := by
  unfold SecondRunClean
  constructor
  · rw [pushCompute_spec]
    show (sc.enabled.filterMap (enableIdCand
      (buildRuleMap (applyPush rules (pushCompute sc (buildRuleMap rules)))))) = []
    rw [List.filterMap_eq_nil_iff]
    intro rid hrid
    unfold enableIdCand
    rw [secondRun_lookup]
    cases h : lookupRule rid (buildRuleMap rules) with
    | none => rfl
    | some info =>
      have hflag : newFlag (pushCompute sc (buildRuleMap rules)) info.id info.enabled =
          true := by
        unfold newFlag
        have hnotD : info.id ∉ (pushCompute sc (buildRuleMap rules)).to_disable_ids := by
          intro hin
          obtain ⟨rid', hrid', info', hl', he', hid'⟩ := mem_to_disable_ids_iff.mp hin
          have hne : rid ≠ rid' := by
            intro hEq
            apply hdisj rid hrid
            rw [hEq]
            exact hrid'
          exact distinct_rids_distinct_ids hnodup hne h hl' hid'.symm
        rw [if_neg hnotD]
        by_cases hinE : info.id ∈ (pushCompute sc (buildRuleMap rules)).to_enable_ids
        · rw [if_pos hinE]
        · rw [if_neg hinE]
          cases he : info.enabled with
          | true => rfl
          | false =>
            exact absurd (mem_to_enable_ids_iff.mpr ⟨rid, hrid, info, h, he, rfl⟩) hinE
      simp [hflag]
  · rw [pushCompute_spec]
    show (sc.disabled.filterMap (disableIdCand
      (buildRuleMap (applyPush rules (pushCompute sc (buildRuleMap rules)))))) = []
    rw [List.filterMap_eq_nil_iff]
    intro rid hrid
    unfold disableIdCand
    rw [secondRun_lookup]
    cases h : lookupRule rid (buildRuleMap rules) with
    | none => rfl
    | some info =>
      have hflag : newFlag (pushCompute sc (buildRuleMap rules)) info.id info.enabled =
          false := by
        unfold newFlag
        by_cases hinD : info.id ∈ (pushCompute sc (buildRuleMap rules)).to_disable_ids
        · rw [if_pos hinD]
        · rw [if_neg hinD]
          have he : info.enabled = false := by
            cases he' : info.enabled with
            | false => rfl
            | true =>
              exact absurd (mem_to_disable_ids_iff.mpr ⟨rid, hrid, info, h, he', rfl⟩) hinD
          have hinE : info.id ∉ (pushCompute sc (buildRuleMap rules)).to_enable_ids := by
            intro hin
            obtain ⟨rid', hrid', info', hl', he', hid'⟩ := mem_to_enable_ids_iff.mp hin
            have hne : rid' ≠ rid := by
              intro hEq
              apply hdisj rid' hrid'
              rw [hEq]
              exact hrid
            exact distinct_rids_distinct_ids hnodup hne hl' h hid'
          rw [if_neg hinE]
          exact he
      simp [hflag]

/-- Witness for the amended claim C3 at a concrete input. -/
theorem c3_amended_idempotence_witness :
    ((∀ x ∈ scenarioManifest.enabled, x ∉ scenarioManifest.disabled) ∧
        (scenarioRules.map RemoteRule.id).Nodup) ∧
      SecondRunClean scenarioManifest scenarioRules :=
  ⟨⟨by decide, by decide⟩,
    c3_amended_idempotence scenarioManifest scenarioRules (by decide) (by decide)⟩

end Dac

namespace Dac

/-- Claim C4: against a fake backend that consistently serves a fixed rule
list split into consecutive pages of arbitrary sizes, always reporting the
full count as total, get_all_rules terminates within one iteration per page
plus one and returns exactly the served rules, covering every page, with no
duplicates and no omissions. -/
theorem c4_pagination_complete (chunks : List (List RemoteRule)) :
    getAllRules (chunkBackend chunks) (chunks.length + 1) = some chunks.flatten := by
  unfold getAllRules
  exact getAllRulesAux_chunk chunks (chunks.length + 1) 0 (by omega) (Or.inl rfl)

/-- Claim C5, divergence half: when the backend returns empty pages forever
with an unchanging positive total, get_all_rules never terminates — for every
iteration bound the loop is still running (no result is produced and no error
is reported), contradicting the required bound on iterations. -/
theorem c5_unbounded_loop_divergence (t fuel : Nat) :
    getAllRules (emptyPagesBackend t) fuel = none :=
  emptyPages_stuck t fuel 1

/-- Claim C6: in dry-run (preview) mode push issues no bulk call and the
remote state is unchanged, for every manifest, remote rule set and backend
response function. -/
theorem c6_preview_no_mutation (sc : InScopeRules) (rules : List RemoteRule)
    (respond : String → List String → Option Nat) :
    (pushRun true sc rules respond).calls = [] ∧
      (pushRun true sc rules respond).finalRules = rules :=
  ⟨rfl, rfl⟩

/-- Claim C7: in apply mode push issues at most two bulk calls — the enable
calls issued are exactly one call carrying all computed to-enable internal
ids when that list is non-empty and none otherwise, symmetrically for
disable — and it issues no call at all exactly when the classification found
nothing to change; in particular an empty manifest yields zero bulk calls. -/
theorem c7_bulk_calls (sc : InScopeRules) (rules : List RemoteRule)
    (respond : String → List String → Option Nat) :
    (pushRun false sc rules respond).calls.length ≤ 2 ∧
      (pushRun false sc rules respond).calls.filter (fun c => c.action == enableAction) =
        (if (pushRun false sc rules respond).changes.to_enable_ids.isEmpty then []
        else [⟨enableAction, (pushRun false sc rules respond).changes.to_enable_ids⟩]) ∧
      (pushRun false sc rules respond).calls.filter (fun c => c.action == disableAction) =
        (if (pushRun false sc rules respond).changes.to_disable_ids.isEmpty then []
        else [⟨disableAction, (pushRun false sc rules respond).changes.to_disable_ids⟩]) ∧
      ((pushRun false sc rules respond).calls = [] ↔
        (pushRun false sc rules respond).changes.to_enable_ids = [] ∧
          (pushRun false sc rules respond).changes.to_disable_ids = []) ∧
      (pushRun false ⟨[], []⟩ rules respond).calls = [] := by
  have h0 : pushCompute ⟨[], []⟩ (buildRuleMap rules) = ⟨[], [], [], [], []⟩ := rfl
  have hee : (enableAction == enableAction) = true := rfl
  have hdd : (disableAction == disableAction) = true := rfl
  have hde : (disableAction == enableAction) = false := rfl
  have hed : (enableAction == disableAction) = false := rfl
  refine ⟨?_, ?_, ?_, ?_, ?_⟩
  · unfold pushRun
    by_cases hE : (pushCompute sc (buildRuleMap rules)).to_enable_ids = [] <;>
      by_cases hD : (pushCompute sc (buildRuleMap rules)).to_disable_ids = [] <;>
        simp [hE, hD, List.isEmpty_iff]
  · unfold pushRun
    by_cases hE : (pushCompute sc (buildRuleMap rules)).to_enable_ids = [] <;>
      by_cases hD : (pushCompute sc (buildRuleMap rules)).to_disable_ids = [] <;>
        simp [hE, hD, List.isEmpty_iff, List.filter_cons, hee, hdd, hde, hed]
  · unfold pushRun
    by_cases hE : (pushCompute sc (buildRuleMap rules)).to_enable_ids = [] <;>
      by_cases hD : (pushCompute sc (buildRuleMap rules)).to_disable_ids = [] <;>
        simp [hE, hD, List.isEmpty_iff, List.filter_cons, hee, hdd, hde, hed]
  · unfold pushRun
    by_cases hE : (pushCompute sc (buildRuleMap rules)).to_enable_ids = [] <;>
      by_cases hD : (pushCompute sc (buildRuleMap rules)).to_disable_ids = [] <;>
        simp [hE, hD, List.isEmpty_iff]
  · unfold pushRun
    simp [h0]

/-- Claim C8: the code diverges from the claim on the uncaught-TypeError
path.  When config.yaml parses to a non-mapping YAML value (for example the
document consisting of one list item), CustomerConfig(**data) raises a
TypeError no except clause catches: the command crashes with a traceback
while checking the first file, never checks in-scope-rules.yaml, and exits
with code 1 having collected and reported no error — so neither the
collect-every-error behaviour nor the exit-1-iff-errors biconditional holds.
Away from that path (no keyword-expansion TypeError in either file) the
claimed behaviour does hold: both files' errors are collected independently
and concatenated, and the exit code is 1 exactly when at least one error was
collected. -/
theorem c8_validate_typeerror_escape :
    (validateRun true (FileCheck.typeError "- a") FileCheck.valid).normalExit = false ∧
      (validateRun true (FileCheck.typeError "- a") FileCheck.valid).rulesFileReached =
        false ∧
      (validateRun true (FileCheck.typeError "- a") FileCheck.valid).reportedErrors = [] ∧
      (validateRun true (FileCheck.typeError "- a") FileCheck.valid).exitCode = 1 ∧
      (∀ configCheck rulesCheck : FileCheck, raisesTypeError configCheck = false →
        raisesTypeError rulesCheck = false →
        (validateRun true configCheck rulesCheck).normalExit = true ∧
          (validateRun true configCheck rulesCheck).rulesFileReached = true ∧
          (validateRun true configCheck rulesCheck).reportedErrors =
            fileErrors configLabel configCheck ++ fileErrors rulesLabel rulesCheck ∧
          ((validateRun true configCheck rulesCheck).exitCode = 1 ↔
            (validateRun true configCheck rulesCheck).reportedErrors ≠ [])) := by
  refine ⟨rfl, rfl, rfl, rfl, ?_⟩
  intro configCheck rulesCheck hc hr
  unfold validateRun
  cases h : (fileErrors configLabel configCheck ++ fileErrors rulesLabel rulesCheck).isEmpty with
  | true => simp [hc, hr, h, List.isEmpty_iff.mp h]
  | false =>
    have hne : fileErrors configLabel configCheck ++ fileErrors rulesLabel rulesCheck ≠ [] := by
      intro hnil
      rw [hnil] at h
      exact absurd h (by simp)
    simp [hc, hr, h, hne]

/-- Claim C9: in apply mode the reported succeeded count of every issued bulk
call equals the backend response's attributes.summary.succeeded value when
present and falls back to the number of requested internal ids when the
response omits it. -/
theorem c9_reported_counts (sc : InScopeRules) (rules : List RemoteRule)
    (respond : String → List String → Option Nat) :
    (pushRun false sc rules respond).reported =
      (pushRun false sc rules respond).calls.map
        (fun c => (c.action, (respond c.action c.ids).getD c.ids.length)) := by
  unfold pushRun
  by_cases hE : (pushCompute sc (buildRuleMap rules)).to_enable_ids.isEmpty <;>
    by_cases hD : (pushCompute sc (buildRuleMap rules)).to_disable_ids.isEmpty <;>
      simp [hE, hD]

/-- Claim C10: the sync command's generated enablement content handles the
two empty-list cases asymmetrically — an empty disabled list still emits the
literal flow-sequence line under the disabled key, while an empty enabled
list emits the enabled key with no items and no such fallback, the disabled
section header following it immediately. -/
theorem c10_sync_empty_lists (customer : String) (es ds : List String) :
    (∃ s, enablementContent customer ⟨es, []⟩ = s ++ (disabledHeader ++ emptyListLine)) ∧
      enablementContent customer ⟨[], ds⟩ =
        enablementHeader customer ++ disabledHeader ++ itemLines ds ++
          (if ds.isEmpty then emptyListLine else "") := by
  constructor
  · refine ⟨enablementHeader customer ++ itemLines es, ?_⟩
    rw [enablementContent_eq]
    show enablementHeader customer ++ itemLines es ++ disabledHeader ++ itemLines [] ++
        (if ([] : List String).isEmpty then emptyListLine else "") = _
    rw [show itemLines [] = "" from rfl]
    simp [String.append_empty, String.append_assoc]
  · rw [enablementContent_eq]
    show enablementHeader customer ++ itemLines [] ++ disabledHeader ++ itemLines ds ++
        (if ds.isEmpty then emptyListLine else "") = _
    rw [show itemLines [] = "" from rfl]
    simp [String.append_empty, String.append_assoc]

end Dac
